import Mathlib

/-!
Verification of the owid-catalog metadata layer (`owid/catalog/*.py`).

The development shallowly embeds the data model (`meta.py`), variable metadata
combination (`variables.py`), dataset-directory operations (`datasets.py`),
catalog search/walk (`catalogs.py`) and the table save/load pipeline
(`tables.py`), and settles the specification's claims against it.

Free-form JSON-ish dictionaries (`display`, `additional_info`) are modelled as
association lists of string keys and string values: the claims under study
only ever need emptiness, key update and structural equality of these maps.
-/

namespace OwidCatalog

/-- A free-form string-keyed mapping (models a Python `Dict[str, Any]` whose
values we only ever compare structurally). -/
abbrev StrDict := List (String × String)

/-! ## meta.py: the metadata model -/

/-- Embeds `meta.Source`: provenance of one input.  All fields optional, defaulting
to `None` (here `none`), exactly as the dataclass declares them. -/
structure Source where
  name : Option String := none
  description : Option String := none
  url : Option String := none
  source_data_url : Option String := none
  owid_data_url : Option String := none
  date_accessed : Option String := none
  publication_date : Option String := none
  publication_year : Option Int := none
  published_by : Option String := none
  publisher_source : Option String := none
deriving DecidableEq, Repr, Inhabited

/-- Embeds `meta.License`: name + URL. -/
structure License where
  name : Option String := none
  url : Option String := none
deriving DecidableEq, Repr, Inhabited

/-- One entry of a processing log (`variables.add_entry_to_processing_log`
builds dictionaries of this shape). -/
structure LogEntry where
  variable_name : String
  parents : List String
  operation : String
  comment : Option String := none
deriving DecidableEq, Repr

/-- Embeds `meta.VariableMeta`: per-column annotation, with the fields the
dataclass in `meta.py` declares.

`meta.py` declares *no* `processing_log` field; `variables.py` nevertheless
reads and writes `metadata.processing_log` as a plain dynamic attribute
(ordinary Python objects accept attribute assignment).  The field
`processing_log_attr` models that dynamic attribute: `none` means the
attribute has never been set (reading it raises `AttributeError`),
`some v` means it was assigned the value `v` (itself `Option`al since the
code compares it against `None`). -/
structure VariableMeta where
  title : Option String := none
  description : Option String := none
  sources : List Source := []
  licenses : List License := []
  unit : Option String := none
  short_unit : Option String := none
  display : Option StrDict := none
  additional_info : Option StrDict := none
  processing_log_attr : Option (Option (List LogEntry)) := none
deriving DecidableEq, Repr, Inhabited

/-- Embeds `meta.DatasetMeta`: per-dataset annotation. -/
structure DatasetMeta where
  namespace_ : Option String := none
  short_name : Option String := none
  title : Option String := none
  description : Option String := none
  sources : List Source := []
  licenses : List License := []
  is_public : Bool := true
  additional_info : Option StrDict := none
  source_checksum : Option String := none
deriving DecidableEq, Repr, Inhabited

/-- Embeds `meta.TableMeta`: per-table annotation.  The `dataset` back-reference is
declared with `compare=False` in the source, so it is carried but excluded
from the equality used by the code (see `TableMeta.eqCmp`). -/
structure TableMeta where
  short_name : Option String := none
  title : Option String := none
  description : Option String := none
  dataset : Option DatasetMeta := none
  primary_key : List String := []
deriving DecidableEq, Repr, Inhabited

/-- Equality of `TableMeta` as the dataclass compares it: every field except
the `dataset` back-reference (`field(compare=False)`). -/
def TableMeta.eqCmp (a b : TableMeta) : Bool :=
  a.short_name == b.short_name && a.title == b.title &&
    a.description == b.description && a.primary_key == b.primary_key

/-- Python `str(x)` on an optional int: `str(None) = "None"`. -/
def pyStrOptInt : Option Int → String
  | none => "None"
  | some n => toString n

/-- Python truthiness of an optional string (`if source.publication_date:`):
`None` and the empty string are falsy. -/
def pyTruthyStr : Option String → Bool
  | none => false
  | some s => s ≠ ""

/-- Embeds `DatasetMeta.version` (meta.py lines 135–144): if exactly one source is
present, return its `publication_date` when truthy, else
`str(publication_year)`; with zero or several sources return `None`. -/
def DatasetMeta.version (m : DatasetMeta) : Option String :=
  match m.sources with
  | [source] =>
      if pyTruthyStr source.publication_date then source.publication_date
      else some (pyStrOptInt source.publication_year)
  | _ => none

/-! ## Pruned dict serialization of `Source` and `License`

`pruned_json` overrides `to_dict` to drop every key whose value is `None`,
`[]` or `{}`.  For `Source`/`License` every field is optional with default
`None`, so the pruned dict holds exactly the non-`none` fields. -/

/-- A JSON scalar as stored in a pruned metadata dict. -/
inductive JVal where
  | s (v : String)
  | i (v : Int)
deriving DecidableEq, Repr

/-- Drop the entries whose value is absent (the pruning step of
`pruned_json`: keys with `None` values are omitted). -/
def pruneEntries (l : List (String × Option JVal)) : List (String × JVal) :=
  l.filterMap (fun kv => kv.2.map (fun x => (kv.1, x)))

/-- Coerce an optional dict value back to an optional string. -/
def jUnS : Option JVal → Option String
  | some (.s v) => some v
  | _ => none

/-- Coerce an optional dict value back to an optional int. -/
def jUnI : Option JVal → Option Int
  | some (.i v) => some v
  | _ => none

/-- Read a string-valued key back out of a pruned dict (missing key ⇒
the dataclass default `None`). -/
def jGetS (d : List (String × JVal)) (k : String) : Option String :=
  jUnS (d.lookup k)

/-- Read an int-valued key back out of a pruned dict. -/
def jGetI (d : List (String × JVal)) (k : String) : Option Int :=
  jUnI (d.lookup k)

/-- The (key, optional value) pairs of a `Source`, in field order. -/
def Source.entries (s : Source) : List (String × Option JVal) :=
  [("name", s.name.map .s),
   ("description", s.description.map .s),
   ("url", s.url.map .s),
   ("source_data_url", s.source_data_url.map .s),
   ("owid_data_url", s.owid_data_url.map .s),
   ("date_accessed", s.date_accessed.map .s),
   ("publication_date", s.publication_date.map .s),
   ("publication_year", s.publication_year.map .i),
   ("published_by", s.published_by.map .s),
   ("publisher_source", s.publisher_source.map .s)]

/-- Embeds `Source.to_dict` with `pruned_json` applied: only the non-`None` fields
appear. -/
def Source.to_dict (s : Source) : List (String × JVal) :=
  pruneEntries s.entries

/-- Embeds `Source.from_dict`: missing keys fall back to the declared defaults. -/
def Source.from_dict (d : List (String × JVal)) : Source :=
  { name := jGetS d "name"
    description := jGetS d "description"
    url := jGetS d "url"
    source_data_url := jGetS d "source_data_url"
    owid_data_url := jGetS d "owid_data_url"
    date_accessed := jGetS d "date_accessed"
    publication_date := jGetS d "publication_date"
    publication_year := jGetI d "publication_year"
    published_by := jGetS d "published_by"
    publisher_source := jGetS d "publisher_source" }

/-- Embeds `License.to_dict` (pruned). -/
def License.to_dict (l : License) : List (String × JVal) :=
  pruneEntries [("name", l.name.map .s), ("url", l.url.map .s)]

/-- Embeds `License.from_dict`. -/
def License.from_dict (d : List (String × JVal)) : License :=
  { name := jGetS d "name", url := jGetS d "url" }

/-! ## variables.py: annotated variables and metadata combination -/

/-- Embeds `pandas.unique`: deduplicate keeping the first occurrence of each value,
in original order.  `seen` accumulates the values already emitted. -/
def pdUniqueAux {α : Type} [DecidableEq α] : List α → List α → List α
  | _, [] => []
  | seen, x :: xs =>
      if x ∈ seen then pdUniqueAux seen xs else x :: pdUniqueAux (x :: seen) xs

/-- Embeds `pandas.unique` on a list. -/
def pdUnique {α : Type} [DecidableEq α] (l : List α) : List α := pdUniqueAux [] l

/-- Embeds `variables.UNNAMED_VARIABLE`: temporary placeholder name given to the
result of a binary operation. -/
def UNNAMED_VARIABLE : String := "**TEMPORARY UNNAMED VARIABLE**"

/-- Embeds `variables.Variable`: a named column of data paired with a metadata
mapping.  `values` models the underlying series cells (`none` = NaN);
`fields` is the `_fields` mapping from names to `VariableMeta`. -/
structure Variable where
  name : Option String := none
  values : List (Option Int) := []
  fields : List (String × VariableMeta) := []
deriving Repr

/-- Embeds `Variable.checked_name`: `if not self.name: raise ValueError(...)`
(both `None` and the empty string are falsy). -/
def Variable.checked_name (v : Variable) : Except String String :=
  match v.name with
  | some n =>
      if n = "" then .error "variable must be named to have metadata" else .ok n
  | none => .error "variable must be named to have metadata"

/-- Embeds `Variable.metadata`: `self._fields[self.checked_name]` (plain dict
access — a missing entry is a `KeyError`). -/
def Variable.metadata (v : Variable) : Except String VariableMeta := do
  let n ← v.checked_name
  match v.fields.lookup n with
  | some m => .ok m
  | none => .error ("KeyError: " ++ n)

/-- An operand of a binary variable operation: either another variable or a
scalar (which carries no `.metadata` attribute). -/
inductive Operand where
  | var (v : Variable)
  | scalar (x : Int)

/-- Embeds `[v for v in variables if hasattr(v, "metadata")]` followed by the
`variable.metadata` accesses the combine helpers perform: resolves the
metadata of the variable operands in order, skipping scalars.  An unnamed
variable propagates its `ValueError` (Python's `hasattr` swallows only
`AttributeError`). -/
def variablesOnlyMetas : List Operand → Except String (List VariableMeta)
  | [] => .ok []
  | .scalar _ :: rest => variablesOnlyMetas rest
  | .var v :: rest => do
      let m ← v.metadata
      let ms ← variablesOnlyMetas rest
      .ok (m :: ms)

/-- Embeds `variables._combine_variable_units_or_short_units`: for `+`/`-` keep the
unit only when all operands carry the same one; for every other operation
leave it `None`. -/
def _combine_variable_units_or_short_units (metas : List VariableMeta)
    (operation : String) (get : VariableMeta → Option String) : Option String :=
  let units := pdUnique (metas.map get)
  if operation = "+" ∨ operation = "-" then
    match units with
    | [u] => u
    | _ => none
  else none

/-- Embeds `variables.combine_variables_units`. -/
def combine_variables_units (metas : List VariableMeta) (operation : String) :
    Option String :=
  _combine_variable_units_or_short_units metas operation (·.unit)

/-- Embeds `variables.combine_variables_short_units`. -/
def combine_variables_short_units (metas : List VariableMeta) (operation : String) :
    Option String :=
  _combine_variable_units_or_short_units metas operation (·.short_unit)

/-- Embeds `variables._combine_variables_titles_and_descriptions`: keep the value
only when the operation is additive-like and all operands agree. -/
def _combine_variables_titles_and_descriptions (metas : List VariableMeta)
    (operation : String) (get : VariableMeta → Option String) : Option String :=
  if operation = "+" ∨ operation = "-" ∨ operation = "fillna" ∨ operation = "merge" then
    match pdUnique (metas.map get) with
    | [t] => t
    | _ => none
  else none

/-- Embeds `variables.combine_variables_titles`. -/
def combine_variables_titles (metas : List VariableMeta) (operation : String) :
    Option String :=
  _combine_variables_titles_and_descriptions metas operation (·.title)

/-- Embeds `variables.combine_variables_descriptions`. -/
def combine_variables_descriptions (metas : List VariableMeta) (operation : String) :
    Option String :=
  _combine_variables_titles_and_descriptions metas operation (·.description)

/-- Embeds `variables.get_unique_sources_from_variables`: concatenate all operands'
sources, form the tuples of their pruned `to_dict` items, `pd.unique` them
keeping order, and rebuild `Source` records via `from_dict`. -/
def get_unique_sources_from_variables (metas : List VariableMeta) : List Source :=
  let sources := (metas.map (fun m => m.sources)).flatten
  (pdUnique (sources.map Source.to_dict)).map Source.from_dict

/-- Embeds `variables.get_unique_licenses_from_variables`: same dedup for
licenses. -/
def get_unique_licenses_from_variables (metas : List VariableMeta) : List License :=
  let licenses := (metas.map (fun m => m.licenses)).flatten
  (pdUnique (licenses.map License.to_dict)).map License.from_dict

/-- Reading `metadata.processing_log`: `meta.py`'s `VariableMeta` dataclass
declares no such field, so the read succeeds only if the attribute was
dynamically assigned earlier, and raises `AttributeError` otherwise. -/
def getattrProcessingLog (m : VariableMeta) : Except String (Option (List LogEntry)) :=
  match m.processing_log_attr with
  | some v => .ok v
  | none => .error "AttributeError: 'VariableMeta' object has no attribute 'processing_log'"

/-- Embeds `variables.combine_variables_processing_logs`: sum of each operand's
`metadata.processing_log` (substituting `[]` when the attribute holds
`None`). -/
def combine_variables_processing_logs :
    List VariableMeta → Except String (List LogEntry)
  | [] => .ok []
  | m :: rest => do
      let pl ← getattrProcessingLog m
      let rest' ← combine_variables_processing_logs rest
      .ok (pl.getD [] ++ rest')

/-- Embeds `variables.combine_variables_metadata`: combine each metadata field of
the variable operands using the operation's rule.  The
`UPDATE_PROCESSING_LOG` toggle defaults to `False`, so no new log entry is
appended and the `name` argument is unused. -/
def combine_variables_metadata (operands : List Operand) (operation : String) :
    Except String VariableMeta := do
  let metas ← variablesOnlyMetas operands
  let pl ← combine_variables_processing_logs metas
  .ok { title := combine_variables_titles metas operation
        description := combine_variables_descriptions metas operation
        unit := combine_variables_units metas operation
        short_unit := combine_variables_short_units metas operation
        sources := get_unique_sources_from_variables metas
        licenses := get_unique_licenses_from_variables metas
        processing_log_attr := some (some pl) }

/-- Elementwise data for a binary arithmetic operation (`self.values ⊕ other`),
with NaN propagation. -/
def opValues (f : Int → Int → Int) (a : List (Option Int)) : Operand → List (Option Int)
  | .var w => a.zipWith (fun x y => do pure (f (← x) (← y))) w.values
  | .scalar c => a.map (fun x => x.map (f · c))

/-- The common body of `Variable.__add__`, `__sub__`, … : build a new
variable named `UNNAMED_VARIABLE` from the combined values, then assign it
the combined metadata (an error in the combination propagates). -/
def Variable.binaryOp (self : Variable) (other : Operand) (operation : String)
    (f : Int → Int → Int) : Except String Variable := do
  let meta ← combine_variables_metadata [.var self, other] operation
  .ok { name := some UNNAMED_VARIABLE
        values := opValues f self.values other
        fields := [(UNNAMED_VARIABLE, meta)] }

/-- Embeds `Variable.__add__`. -/
def Variable.add (self : Variable) (other : Operand) : Except String Variable :=
  self.binaryOp other "+" (· + ·)

/-- Embeds `Variable.__mul__`. -/
def Variable.mul (self : Variable) (other : Operand) : Except String Variable :=
  self.binaryOp other "*" (· * ·)

/-- Embeds `Variable.fillna`: fill missing cells from `value`, then combine the
two operands' metadata under the `"fillna"` operation. -/
def Variable.fillna (self : Variable) (value : Operand) : Except String Variable := do
  let filled :=
    match value with
    | .var w => self.values.zipWith (fun x y => x.orElse (fun _ => y)) w.values
    | .scalar c => self.values.map (fun x => some (x.getD c))
  let meta ← combine_variables_metadata [.var self, value] "fillna"
  .ok { name := some UNNAMED_VARIABLE
        values := filled
        fields := [(UNNAMED_VARIABLE, meta)] }

/-! ## Pruned dict serialization of `VariableMeta`, `TableMeta` (meta.py)

The JSON dicts written by `tables.Table._save_metadata` / `to_parquet` are
modelled as records with one optional component per possible key (`none` =
key absent).  Nested dataclasses (`Source`, `License`, `DatasetMeta`) are
serialized field-for-field by `dataclass_json` (the pruning override applies
only at the top level) and are therefore carried as records. -/

/-- The pruned dict of a `VariableMeta` (`pruned_json`: keys whose value is
`None`, `[]` or `{}` are omitted). -/
structure VariableMetaJson where
  title : Option String := none
  description : Option String := none
  sources : Option (List Source) := none
  licenses : Option (List License) := none
  unit : Option String := none
  short_unit : Option String := none
  display : Option StrDict := none
  additional_info : Option StrDict := none
deriving DecidableEq, Repr

/-- Embeds `VariableMeta.to_dict` (pruned): fields that are `None`, the empty list
or the empty dict are dropped.  The dynamically-assigned `processing_log`
attribute is not a dataclass field and is not serialized. -/
def VariableMeta.to_dict (m : VariableMeta) : VariableMetaJson :=
  { title := m.title
    description := m.description
    sources := if m.sources = [] then none else some m.sources
    licenses := if m.licenses = [] then none else some m.licenses
    unit := m.unit
    short_unit := m.short_unit
    display := match m.display with
      | some d => if d = [] then none else some d
      | none => none
    additional_info := match m.additional_info with
      | some d => if d = [] then none else some d
      | none => none }

/-- Embeds `VariableMeta.from_dict`: missing keys take the declared defaults; the
fresh object has no dynamic `processing_log` attribute. -/
def VariableMeta.from_dict (j : VariableMetaJson) : VariableMeta :=
  { title := j.title
    description := j.description
    sources := j.sources.getD []
    licenses := j.licenses.getD []
    unit := j.unit
    short_unit := j.short_unit
    display := j.display
    additional_info := j.additional_info
    processing_log_attr := none }

/-- The pruned dict of a `TableMeta`. -/
structure TableMetaJson where
  short_name : Option String := none
  title : Option String := none
  description : Option String := none
  dataset : Option DatasetMeta := none
  primary_key : Option (List String) := none
deriving DecidableEq, Repr

/-- Embeds `TableMeta.to_dict` (pruned): the `dataset` back-reference is a public
field and is serialized when set; `primary_key` is dropped when empty. -/
def TableMeta.to_dict (m : TableMeta) : TableMetaJson :=
  { short_name := m.short_name
    title := m.title
    description := m.description
    dataset := m.dataset
    primary_key := if m.primary_key = [] then none else some m.primary_key }

/-- Embeds `TableMeta.from_dict`: missing keys take the declared defaults. -/
def TableMeta.from_dict (j : TableMetaJson) : TableMeta :=
  { short_name := j.short_name
    title := j.title
    description := j.description
    dataset := j.dataset
    primary_key := j.primary_key.getD [] }

/-- Python dataclass equality on `VariableMeta`: declared fields only — the
dynamically-assigned `processing_log` attribute is not compared. -/
def VariableMeta.pyEq (a b : VariableMeta) : Prop :=
  a.title = b.title ∧ a.description = b.description ∧ a.sources = b.sources ∧
    a.licenses = b.licenses ∧ a.unit = b.unit ∧ a.short_unit = b.short_unit ∧
    a.display = b.display ∧ a.additional_info = b.additional_info

instance (a b : VariableMeta) : Decidable (a.pyEq b) := by
  unfold VariableMeta.pyEq; infer_instance

/-- Whether a modelled Python call returned normally (no exception). -/
def exceptOk {ε α : Type} : Except ε α → Bool
  | .ok _ => true
  | .error _ => false

/-! ## tables.py: the annotated table and multi-format save/load

A table-cell value is modelled as `Option Int` (`none` = missing value).
The storage engine itself (CSV text encoding, feather/parquet encoding,
compression) is an external collaborator accessed through a plain
write-columns/read-columns contract, so a saved file carries its columns
verbatim. -/

/-- Embeds `tables.Table`: index levels (pandas index names may be `None`), data
columns, the table metadata, and the `_fields` mapping.  `_fields` is a
`defaultdict`, so lookups of absent keys read as empty metadata
(`Table.getField`). -/
structure Table where
  index : List (Option String × List (Option Int)) := []
  columns : List (String × List (Option Int)) := []
  metadata : TableMeta := {}
  fields : List (String × VariableMeta) := []
deriving Repr

/-- Embeds `_fields[col]` under `defaultdict(VariableMeta)` semantics. -/
def Table.getField (t : Table) (col : String) : VariableMeta :=
  (t.fields.lookup col).getD {}

/-- Python name filtering `[n for n in names if n]`: drop `None` and `""`. -/
def pyFilterName : Option String → Option String
  | none => none
  | some n => if n = "" then none else some n

/-- Embeds `Table.primary_key`: the non-falsy index level names. -/
def Table.primary_key (t : Table) : List String :=
  (t.index.map Prod.fst).filterMap pyFilterName

/-- Embeds `Table.all_columns`: `filter(None, index.names + columns)`. -/
def Table.all_columns (t : Table) : List String :=
  ((t.index.map Prod.fst) ++ (t.columns.map (fun c => some c.1))).filterMap pyFilterName

/-- Embeds `Table.set_index(keys, inplace=..., drop=True, append=False)`: the key
columns become the index levels (replacing any existing index), are removed
from the data columns, and the key list is recorded into
`metadata.primary_key`. -/
def Table.set_index (t : Table) (keys : List String) : Table :=
  { t with
    index := keys.filterMap (fun k => (t.columns.lookup k).map (fun vs => (some k, vs)))
    columns := t.columns.filter (fun c => ! keys.contains c.1)
    metadata := { t.metadata with primary_key := keys } }

/-- Embeds `DataFrame.reset_index()` as used by `to_feather`/`to_parquet`: the
index levels are flattened into leading data columns (well-formed tables
have named index levels; an unnamed level is given pandas' fallback name
`"index"`). -/
def Table.resetIndexColumns (t : Table) : List (String × List (Option Int)) :=
  t.index.map (fun lv => (lv.1.getD "index", lv.2)) ++ t.columns

/-- Modelled from the spec: `frames.repack_frame` — `frames.py` is not part
of the provided sources; the spec describes repacking as narrowing numeric
column types to the smallest lossless representation before writing, which
on the value level leaves every cell unchanged. -/
def repack_frame (cols : List (String × List (Option Int))) :
    List (String × List (Option Int)) := cols

/-- The JSON sidecar `Table._save_metadata` writes: the pruned `TableMeta`
dict with `primary_key` and `fields` injected (both always present,
overwriting any pruned `primary_key` key). -/
structure MetaSidecar where
  table_meta : TableMetaJson
  primary_key : List String
  fields : List (String × VariableMetaJson)
deriving Repr

/-- Embeds `Table._save_metadata`. -/
def Table._save_metadata (t : Table) : MetaSidecar :=
  { table_meta := t.metadata.to_dict
    primary_key := t.primary_key
    fields := t.all_columns.map (fun col => (col, (t.getField col).to_dict)) }

/-- A saved csv or feather artifact: the data file's columns plus the JSON
sidecar. -/
structure SavedSidecarFile where
  cells : List (String × List (Option Int))
  sidecar : MetaSidecar
deriving Repr

/-- A saved parquet artifact: the data columns plus the three metadata keys
embedded in the file's schema metadata block (each optional on read, but
`to_parquet` always writes all three). -/
structure SavedParquetFile where
  cells : List (String × List (Option Int))
  owid_table : Option TableMetaJson
  owid_fields : Option (List (String × VariableMetaJson))
  primary_key : Option (List String)
deriving Repr

/-- Embeds `Table.to_csv`: write the data with the index included only when a
primary key is set, plus the sidecar. -/
def Table.to_csv (t : Table) : SavedSidecarFile :=
  { cells := if t.primary_key ≠ [] then t.resetIndexColumns else t.columns
    sidecar := t._save_metadata }

/-- Embeds `Table.to_feather`: flatten the index into columns (failing when index
names collide with data column names), optionally repack, write the data
plus the sidecar. -/
def Table.to_feather (t : Table) : Except String SavedSidecarFile :=
  let overlapping := (t.index.map Prod.fst).filterMap id |>.filter
    (fun n => (t.columns.map Prod.fst).contains n)
  if t.primary_key ≠ [] ∧ overlapping ≠ [] then
    .error "index names are overlapping with column names"
  else
    let df := if t.primary_key ≠ [] then t.resetIndexColumns else t.columns
    .ok { cells := repack_frame df, sidecar := t._save_metadata }

/-- Embeds `Table.to_parquet`: flatten the index, optionally repack, and embed the
three metadata keys in the schema metadata. -/
def Table.to_parquet (t : Table) : SavedParquetFile :=
  let df := if t.primary_key ≠ [] then t.resetIndexColumns else t.columns
  { cells := repack_frame df
    owid_table := some t.metadata.to_dict
    owid_fields := some (t.all_columns.map (fun col => (col, (t.getField col).to_dict)))
    primary_key := some t.primary_key }

/-- Embeds `Table.read_csv`: read the data with no index column, rebuild the
metadata via the `TableMeta` constructor on the sidecar minus the popped
`primary_key`/`fields` keys, rebuild `_fields` with `from_dict`, and
restore the index by re-applying `set_index`. -/
def Table.read_csv (f : SavedSidecarFile) : Table :=
  let primary_key := f.sidecar.primary_key
  let t : Table :=
    { index := []
      columns := f.cells
      metadata := TableMeta.from_dict { f.sidecar.table_meta with primary_key := none }
      fields := f.sidecar.fields.map (fun kv => (kv.1, VariableMeta.from_dict kv.2)) }
  if primary_key ≠ [] then t.set_index primary_key else t

/-- Embeds `Table.read_feather`: like csv, except the metadata comes from
`TableMeta.from_dict` on the sidecar with the (non-popped) `primary_key`
key still present. -/
def Table.read_feather (f : SavedSidecarFile) : Table :=
  let primary_key := f.sidecar.primary_key
  let t : Table :=
    { index := []
      columns := f.cells
      metadata := TableMeta.from_dict
        { f.sidecar.table_meta with primary_key := some f.sidecar.primary_key }
      fields := f.sidecar.fields.map (fun kv => (kv.1, VariableMeta.from_dict kv.2)) }
  if primary_key ≠ [] then t.set_index primary_key else t

/-- Embeds `Table.read_parquet`: each of the three embedded schema-metadata keys is
optional; an absent key leaves the default in place. -/
def Table.read_parquet (f : SavedParquetFile) : Table :=
  let t0 : Table := { index := [], columns := f.cells, metadata := {}, fields := [] }
  let t1 := match f.owid_table with
    | some j => { t0 with metadata := TableMeta.from_dict j }
    | none => t0
  let t2 := match f.owid_fields with
    | some fs => { t1 with fields := fs.map (fun kv => (kv.1, VariableMeta.from_dict kv.2)) }
    | none => t1
  match f.primary_key with
  | some pk => if pk ≠ [] then t2.set_index pk else t2
  | none => t2

/-! ## utils.py and the `Table(df, underscore=True)` construction path -/

/-- First character class of `utils.validate_underscore`'s regex
`^[a-z_][a-z0-9_]*$`. -/
def isSnakeFirst (c : Char) : Bool := (('a' ≤ c) && (c ≤ 'z')) || c = '_'

/-- Remaining character class of the snake_case regex. -/
def isSnakeChar (c : Char) : Bool :=
  (('a' ≤ c) && (c ≤ 'z')) || (('0' ≤ c) && (c ≤ '9')) || c = '_'

/-- Whether `re.match("^[a-z_][a-z0-9_]*$", s)` succeeds. -/
def isSnakeCase (s : String) : Bool :=
  match s.data with
  | [] => false
  | c :: cs => isSnakeFirst c && cs.all isSnakeChar

/-- Errors raised by dataset-directory operations. -/
inductive DatasetError where
  /-- Embeds `utils.validate_underscore`'s `NameError`; it names the object and the
  offending value (the real message also embeds a suggested snake_case
  correction computed by `utils.underscore`). -/
  | nameError (objectName offending : String)
  /-- Embeds `Dataset.add`'s unsupported-format exception. -/
  | formatError (format : String)
  /-- Embeds `TableMeta.checked_name` on an unset short name. -/
  | missingShortName
deriving DecidableEq, Repr

/-- Embeds `utils.validate_underscore`: `None` passes; a non-snake_case name raises
`NameError` naming the offending value. -/
def validate_underscore (name : Option String) (objectName : String) :
    Except DatasetError Unit :=
  match name with
  | none => .ok ()
  | some n => if isSnakeCase n then .ok () else .error (.nameError objectName n)

/-- The parameter list of `utils.underscore_table` as defined in `utils.py`:
`def underscore_table(t: Table) -> Table` — one positional parameter and no
`**kwargs`. -/
def underscore_table_params : List String := ["t"]

/-- Python call binding: after binding `posArgs` positional arguments, every
keyword argument must name one of the remaining declared parameters,
otherwise the call raises `TypeError: ... got an unexpected keyword
argument ...`. -/
def pythonBindCall (params : List String) (posArgs : Nat) (kwargs : List String) :
    Except String Unit :=
  match kwargs.find? (fun k => ¬ (params.drop posArgs).contains k) with
  | some k => .error ("TypeError: got an unexpected keyword argument " ++ k)
  | none => .ok ()

/-- Embeds `Table.__init__(df, metadata=..., short_name=..., underscore=...)`
(tables.py lines 52–96): set up the table metadata (asserting that an
explicit `short_name` does not conflict with `metadata.short_name`), give
all columns empty metadata, and — when `underscore=True` — call
`underscore_table(self, inplace=True)`.  `utils.underscore_table` declares
no `inplace` parameter, so that call's binding decides the outcome. -/
def Table.init (columns : List (String × List (Option Int)))
    (metadata : Option TableMeta) (short_name : Option String)
    (underscore : Bool) : Except String Table := do
  let meta0 := metadata.getD {}
  let meta1 ←
    match short_name with
    | some sn =>
        if meta0.short_name = none ∨ meta0.short_name = some sn then
          pure { meta0 with short_name := some sn }
        else
          .error "AssertionError: short_name is different from the one in metadata"
    | none => pure meta0
  let t : Table := { index := [], columns := columns, metadata := meta1, fields := [] }
  if underscore then
    pythonBindCall underscore_table_params 1 ["inplace"]
    -- (unreachable continuation: the call itself raises before any renaming)
  pure t

/-! ## datasets.py: the dataset directory -/

/-- A file system abstraction: the list of existing file paths.  Reading a
table file is modelled as resolving its path (the content round-trip is
covered by the `tables.py` embedding). -/
abbrev FS := List String

/-- Embeds `datasets.Dataset`: a folder path (its metadata lives in `index.json`). -/
structure Dataset where
  path : String
deriving Repr

/-- The on-disk filename for a table of this dataset. -/
def Dataset.filename (d : Dataset) (name ext : String) : String :=
  d.path ++ "/" ++ name ++ ext

/-- Embeds `Dataset.__getitem__`: resolve a bare table name by trying `.feather`,
then `.parquet`, then `.csv`, reading the first file that exists; a name
with no file in any format is a `KeyError`.  The result records the path of
the file that gets loaded. -/
def Dataset.getitem (d : Dataset) (fs : FS) (name : String) : Except String String :=
  if fs.contains (d.filename name ".feather") then .ok (d.filename name ".feather")
  else if fs.contains (d.filename name ".parquet") then .ok (d.filename name ".parquet")
  else if fs.contains (d.filename name ".csv") then .ok (d.filename name ".csv")
  else .error ("Table `" ++ name ++ "` not found")

/-- Embeds `Dataset.__contains__`: checks for the `.feather` and `.csv` filenames
only. -/
def Dataset.contains (d : Dataset) (fs : FS) (name : String) : Bool :=
  fs.contains (d.filename name ".feather") || fs.contains (d.filename name ".csv")

/-- Embeds `datasets.ALLOWED_FORMATS`. -/
def ALLOWED_FORMATS : List String := ["csv", "feather", "parquet"]

/-- Embeds `datasets.DEFAULT_FORMATS`. -/
def DEFAULT_FORMATS : List String := ["feather", "parquet"]

/-- Embeds `TableMeta.checked_name`: raises when `short_name` is unset (or empty,
both being falsy). -/
def TableMeta.checked_name (m : TableMeta) : Except DatasetError String :=
  match m.short_name with
  | some n => if n = "" then .error .missingShortName else .ok n
  | none => .error .missingShortName

/-- The validation loop of `Dataset.add`: `validate_underscore(col,
"Variable's name")` over `list(table.columns) + list(table.index.names)`,
stopping at the first offender. -/
def validateColumnNames : List (Option String) → Except DatasetError Unit
  | [] => .ok ()
  | n :: rest => do
      validate_underscore n "Variable's name"
      validateColumnNames rest

/-- The serialization loop of `Dataset.add`: write each requested format
under `<short_name>.<format>` (feather and csv also write the
`.meta.json` sidecar; parquet embeds its metadata in the data file), with
an unsupported format raising after the earlier formats were already
written.  Returns the file system as left behind plus the error, if any. -/
def writeFormats (d : Dataset) (t : Table) : FS → List String → FS × Option DatasetError
  | fs, [] => (fs, none)
  | fs, format :: rest =>
      if ¬ ALLOWED_FORMATS.contains format then (fs, some (.formatError format))
      else
        match t.metadata.checked_name with
        | .error e => (fs, some e)
        | .ok n =>
            let dataFile := d.path ++ "/" ++ n ++ "." ++ format
            let written :=
              if format = "parquet" then [dataFile]
              else [dataFile, d.path ++ "/" ++ n ++ ".meta.json"]
            writeFormats d t (fs ++ written) rest

/-- Embeds `Dataset.add` (datasets.py lines 66–102): validate the table's
`short_name` and every column and index name as snake_case, then stamp the
dataset back-reference and save the table in each requested format.  A
`raise` leaves the file system as already built up at that point; the
naming validations precede every write. -/
def Dataset.add (d : Dataset) (t : Table) (formats : List String) (fs : FS) :
    FS × Option DatasetError :=
  match validate_underscore t.metadata.short_name "Table's short_name" with
  | .error e => (fs, some e)
  | .ok _ =>
    match validateColumnNames
        (t.columns.map (fun c => some c.1) ++ t.index.map Prod.fst) with
    | .error e => (fs, some e)
    | .ok _ => writeFormats d t fs formats

/-! ## catalogs.py: the catalog tree walk, search and load -/

/-- A directory in a catalog tree: its path, whether it directly contains an
`index.json`, and its subdirectories. -/
inductive DirTree where
  | node (path : String) (hasIndexJson : Bool) (children : List DirTree)
deriving Repr

/-- Embeds `LocalCatalog.iter_datasets` (catalogs.py lines 158–175), viewed per
directory: a popped directory that contains `index.json` *and* whose path
matches the compiled `include` pattern is yielded as a dataset and its
children are skipped (`continue`); every other directory's subdirectories
are pushed onto the worklist.  The worklist is a heap ordered by path, which
only permutes the visit sequence, so the walk is modelled recursively; the
result is the pair (paths yielded as datasets, paths of the folders that
were descended into, i.e. whose children were pushed).  With no `include`
argument the compiled pattern is the empty regex, which matches every
path (`matches = fun _ => true`). -/
def iterDatasets (included : String → Bool) : List DirTree → List String × List String
  | [] => ([], [])
  | .node path hasIdx children :: rest =>
      if hasIdx && included path then
        let r := iterDatasets included rest
        (path :: r.1, r.2)
      else
        let r := iterDatasets included (children ++ rest)
        (r.1, path :: r.2)
termination_by l => sizeOf l
decreasing_by
  · simp only [List.cons.sizeOf_spec, DirTree.node.sizeOf_spec]; omega
  · have happ : ∀ (l1 l2 : List DirTree), sizeOf (l1 ++ l2) + 1 = sizeOf l1 + sizeOf l2 := by
      intro l1 l2
      induction l1 with
      | nil => simp only [List.nil_append, List.nil.sizeOf_spec]; omega
      | cons a l ih => simp only [List.cons_append, List.cons.sizeOf_spec]; omega
    have h := happ children rest
    simp only [List.cons.sizeOf_spec, DirTree.node.sizeOf_spec]
    omega

/-- Embeds `LocalCatalog.iter_datasets` for one channel root: the worklist starts
as `[self.path / channel]`. -/
def LocalCatalog.iter_datasets (included : String → Bool) (root : DirTree) :
    List String × List String :=
  iterDatasets included [root]

/-- The subtrees of a catalog tree (the tree itself included). -/
def DirTree.subtrees : DirTree → List DirTree
  | .node path hasIdx children =>
      .node path hasIdx children :: (children.attach.map (fun c => c.1.subtrees)).flatten
decreasing_by
  have h := List.sizeOf_lt_of_mem c.2
  simp only [DirTree.node.sizeOf_spec]
  omega

/-- The subtrees of every tree of a forest. -/
def forestSubtrees (l : List DirTree) : List DirTree :=
  (l.map DirTree.subtrees).flatten

/-- One row of a catalog index frame, with the columns `find` filters on and
the ones `CatalogSeries.load` consumes. -/
structure CatalogRow where
  table : String := ""
  namespace_ : String := ""
  version : String := ""
  dataset : String := ""
  channel : String := ""
  path : String := ""
  format : String := ""
  is_public : Bool := true
deriving DecidableEq, Repr

/-- Substring containment (`table in t` on python strings). -/
def substrMatch (needle hay : String) : Bool :=
  decide (needle.data <:+: hay.data)

/-- The cumulative row criterion of `CatalogMixin.find`: each given (truthy)
argument adds one predicate — substring match on `table`, exact match on
`namespace`/`version`/`dataset`/`channel`. -/
def rowMatches (row : CatalogRow) (table namespace_ version dataset channel : Option String) :
    Bool :=
  (match table with
   | some tq => if tq = "" then true else substrMatch tq row.table
   | none => true) &&
  (match namespace_ with
   | some nq => if nq = "" then true else row.namespace_ == nq
   | none => true) &&
  (match version with
   | some vq => if vq = "" then true else row.version == vq
   | none => true) &&
  (match dataset with
   | some dq => if dq = "" then true else row.dataset == dq
   | none => true) &&
  (match channel with
   | some cq => if cq = "" then true else row.channel == cq
   | none => true)

/-- Embeds `CatalogMixin.find`: filter the in-memory frame by the given criteria;
asking for a channel that is not among the loaded channels is a
`ValueError`. -/
def CatalogMixin.find (frame : List CatalogRow) (channels : List String)
    (table namespace_ version dataset channel : Option String) :
    Except String (List CatalogRow) :=
  match channel with
  | some cq =>
      if cq ≠ "" ∧ ¬ channels.contains cq then
        .error "You need to add the channel to channels in Catalog init"
      else .ok (frame.filter (fun r => rowMatches r table namespace_ version dataset channel))
  | none => .ok (frame.filter (fun r => rowMatches r table namespace_ version dataset channel))

/-- Embeds `CatalogSeries.load`: requires truthy `path`, `format` and `_base_uri`,
builds `base_uri + path + "." + format`, and reads the table in the row's
format — `feather` or `csv`, anything else is `unknown format`.  For a
non-public row the file is first staged through a private-object-storage
download of the same object, so reading is modelled by the one abstract
`fetch` map in both cases. -/
def CatalogSeries.load (fetch : String → Option Table) (baseUri : Option String)
    (row : CatalogRow) : Except String Table :=
  match baseUri with
  | some b =>
      if row.path ≠ "" ∧ row.format ≠ "" ∧ b ≠ "" then
        let uri := b ++ row.path ++ "." ++ row.format
        if row.format = "feather" ∨ row.format = "csv" then
          match fetch uri with
          | some t => .ok t
          | none => .error ("could not read " ++ uri)
        else .error "unknown format"
      else .error "series is not a table spec"
  | none => .error "series is not a table spec"

/-- Embeds `CatalogFrame.load` (catalogs.py lines 336–340): load the single row's
table when the frame has exactly one row, raise otherwise. -/
def CatalogFrame.load (fetch : String → Option Table) (baseUri : Option String)
    (frame : List CatalogRow) : Except String Table :=
  match frame with
  | [row] => CatalogSeries.load fetch baseUri row
  | _ => .error "only one table can be loaded at once"

/-- Embeds `CatalogMixin.find_one`: `self.find(...).load()`. -/
def CatalogMixin.find_one (fetch : String → Option Table) (baseUri : Option String)
    (frame : List CatalogRow) (channels : List String)
    (table namespace_ version dataset channel : Option String) : Except String Table := do
  let rows ← CatalogMixin.find frame channels table namespace_ version dataset channel
  CatalogFrame.load fetch baseUri rows

/-! ## Runtime-object view of table metadata (`Table.copy`)

Python metadata records are mutable objects, and `Table.copy_metadata_from`
copies some of their nested containers while sharing others by reference.
To reason about that aliasing, this layer gives the mutable containers
explicit addresses in a heap: the free-form dicts (`display`,
`additional_info`) and the `licenses` lists live in the heap;
`dataclasses.replace` copies the *reference*.  The per-source fields are
immutable strings and each `Source` object is freshly rebuilt on copy
(`[dataclasses.replace(s) for s in v.sources]`), so sources can be carried
by value. -/

/-- The heap of mutable containers reachable from column metadata. -/
structure Heap where
  dicts : List StrDict := []
  licenseLists : List (List License) := []
deriving Repr

/-- Set one key of a heap dict in place (e.g. `meta.display["k"] = v`
through whichever object holds the reference `r`). -/
def Heap.setDictKey (h : Heap) (r : Nat) (k v : String) : Heap :=
  let d := ((h.dicts.getD r []).filter (fun kv => kv.1 ≠ k)) ++ [(k, v)]
  { h with dicts := h.dicts.set r d }

/-- Embeds `VariableMeta` as a runtime object: scalar fields inline, mutable
containers by heap reference. -/
structure VariableMetaObj where
  title : Option String := none
  description : Option String := none
  sources : List Source := []
  licensesRef : Nat := 0
  unit : Option String := none
  short_unit : Option String := none
  displayRef : Option Nat := none
  additionalInfoRef : Option Nat := none
deriving DecidableEq, Repr

/-- The display mapping a metadata object observes in a heap. -/
def VariableMetaObj.displayValue (h : Heap) (m : VariableMetaObj) : Option StrDict :=
  m.displayRef.map (fun r => h.dicts.getD r [])

/-- Embeds `tables.Table` at the runtime-object level: only the parts
`Table.copy`/`copy_metadata_from` manipulate. -/
structure TableObj where
  indexNames : List String := []
  columnNames : List String := []
  metadata : TableMeta := {}
  fields : List (String × VariableMetaObj) := []
deriving Repr

/-- The `_fields` reconstruction of `Table.copy_metadata_from` (tables.py
lines 456–486): for every column common to both tables, take
`dataclasses.replace(v)` of the other table's record (sharing every
container reference) and reassign its `sources` to a fresh list of freshly
replaced `Source` objects; columns present only in `self._fields` keep
their current record; all other keys (index columns included) are absent
from the new mapping. -/
def copy_metadata_from_fields (selfCols otherCols : List String)
    (selfFields otherFields : List (String × VariableMetaObj)) :
    List (String × VariableMetaObj) :=
  let common := (selfCols.filter (fun c => otherCols.contains c)).dedup
  common.filterMap (fun k =>
    match otherFields.lookup k with
    | some v => some (k, { v with sources := v.sources.map (fun s => s) })
    | none => (selfFields.lookup k).map (fun v => (k, v)))

/-- Embeds `Table.copy` (tables.py lines 450–454): `super().copy(deep=True)`
duplicates the data and propagates the `_metadata` attribute references,
then `copy_metadata_from(self)` replaces the table metadata with
`dataclasses.replace` of the source's and rebuilds `_fields` as above (self
and source have identical columns, so the strict mode raises nothing). -/
def TableObj.copy (t : TableObj) : TableObj :=
  { t with
    metadata := t.metadata
    fields := copy_metadata_from_fields t.columnNames t.columnNames t.fields t.fields }

/-! ## Comparison notions and well-formedness for the round-trip claims -/

/-- A table whose primary key was established through `set_index` (or that
has no index at all): every index level carries a nonempty name, the
recorded `metadata.primary_key` matches the index, all column/index names
are distinct and nonempty. -/
def Table.wf (t : Table) : Prop :=
  (∀ lv ∈ t.index, ∃ n, lv.1 = some n ∧ n ≠ "") ∧
  t.metadata.primary_key = t.primary_key ∧
  t.all_columns.Nodup ∧
  (∀ c ∈ t.columns, c.1 ≠ "")

/-- Column metadata that the pruned serialization can represent exactly:
`display`/`additional_info` are either unset or nonempty (the pruning of an
*empty* dict is irreversible: it loads back as unset). -/
def VariableMeta.pruneStable (m : VariableMeta) : Prop :=
  m.display ≠ some [] ∧ m.additional_info ≠ some []

instance (m : VariableMeta) : Decidable m.pruneStable := by
  unfold VariableMeta.pruneStable; infer_instance

/-- Table equality in the sense of the round-trip property: equal data
content (index and columns), equal `TableMeta`, and an equal per-column
metadata mapping keyed by the current columns (per-record comparison is
Python dataclass equality). -/
def Table.roundtripEq (a b : Table) : Prop :=
  a.index = b.index ∧ a.columns = b.columns ∧ a.metadata = b.metadata ∧
  ∀ c ∈ b.all_columns, (a.getField c).pyEq (b.getField c)

/-- A concrete two-column, one-index-level table at the runtime-object
level: column `a` carries a display dict at heap address 0, the index
column `i` carries its own metadata record. -/
def exampleTableObj : TableObj :=
  { indexNames := ["i"]
    columnNames := ["a"]
    metadata := { short_name := some "tab" }
    fields := [("a", { title := some "T", sources := [{ name := some "s1" }],
                       licensesRef := 0, displayRef := some 0 }),
               ("i", { title := some "IT" })] }

/-- The heap backing `exampleTableObj`: address 0 holds its display dict. -/
def exampleHeap : Heap :=
  { dicts := [[("color", "red")]], licenseLists := [[]] }

/-- A concrete well-formed table — one `country` index level, one `gdp`
column with unit and description — as in the spec's round-trip scenario. -/
def exampleTable : Table :=
  { index := [(some "country", [some 1, some 2, some 3])]
    columns := [("gdp", [some 100, some 102, some 104])]
    metadata := { short_name := some "tab", primary_key := ["country"] }
    fields := [("country", { title := some "Country" }),
               ("gdp", { unit := some "USD", description := some "test" })] }

/-! ## Theorems -/

theorem jUnS_map_s (o : Option String) : jUnS (o.map JVal.s) = o := by
  cases o <;> rfl

theorem jUnI_map_i (o : Option Int) : jUnI (o.map JVal.i) = o := by
  cases o <;> rfl

/-- Looking up a key that is absent from the unpruned entry list is also
absent after pruning. -/
theorem lookup_pruneEntries_of_not_mem (l : List (String × Option JVal)) (k : String)
    (h : k ∉ l.map Prod.fst) : (pruneEntries l).lookup k = none := by
  rw [List.lookup_eq_none_iff]
  intro p hp
  simp only [pruneEntries, List.mem_filterMap] at hp
  obtain ⟨⟨k', v'⟩, hmem, hmap⟩ := hp
  cases v' with
  | none => simp at hmap
  | some v =>
      simp only [Option.map_some', Option.some.injEq] at hmap
      have hp1 : p.1 = k' := by rw [← hmap]
      simp only [bne_iff_ne, ne_eq, hp1]
      intro hkk
      exact h (by rw [hkk]; exact List.mem_map_of_mem Prod.fst hmem)

/-- For an entry list with distinct keys, pruning then looking up a key
gives the (flattened) original value. -/
theorem lookup_pruneEntries (l : List (String × Option JVal)) (k : String)
    (h : (l.map Prod.fst).Nodup) :
    (pruneEntries l).lookup k = (l.lookup k).getD none := by
  induction l with
  | nil => rfl
  | cons hd tl ih =>
      obtain ⟨k', v'⟩ := hd
      simp only [List.map_cons, List.nodup_cons] at h
      obtain ⟨hk, htl⟩ := h
      by_cases hkk : k = k'
      · subst hkk
        cases v' with
        | none =>
            have h1 : pruneEntries ((k, (none : Option JVal)) :: tl) = pruneEntries tl := rfl
            rw [h1, List.lookup_cons]
            simp only [beq_self_eq_true]
            simpa using lookup_pruneEntries_of_not_mem tl k hk
        | some v =>
            have h1 : pruneEntries ((k, some v) :: tl) = (k, v) :: pruneEntries tl := rfl
            rw [h1, List.lookup_cons, List.lookup_cons]
            simp only [beq_self_eq_true]
            rfl
      · have hbeq : (k == k') = false := by simpa using hkk
        cases v' with
        | none =>
            have h1 : pruneEntries ((k', (none : Option JVal)) :: tl) = pruneEntries tl := rfl
            rw [h1, List.lookup_cons]
            simp only [hbeq]
            exact ih htl
        | some v =>
            have h1 : pruneEntries ((k', some v) :: tl) = (k', v) :: pruneEntries tl := rfl
            rw [h1, List.lookup_cons, List.lookup_cons]
            simp only [hbeq]
            exact ih htl

/-- The pruned-dict round trip rebuilds a `Source` unchanged
(`Source.from_dict(dict(tuple(source.to_dict().items())))` in
`get_unique_sources_from_variables`). -/
theorem source_from_dict_to_dict (s : Source) : Source.from_dict s.to_dict = s := by
  have hnd : ((Source.entries s).map Prod.fst).Nodup := by
    simp only [Source.entries, List.map_cons, List.map_nil]
    decide
  have hl : ∀ k, (Source.to_dict s).lookup k = ((Source.entries s).lookup k).getD none :=
    fun k => lookup_pruneEntries _ k hnd
  cases s
  simp [Source.from_dict, jGetS, jGetI, hl, Source.entries, List.lookup_cons,
    jUnS_map_s, jUnI_map_i]

/-- The pruned-dict round trip rebuilds a `License` unchanged. -/
theorem license_from_dict_to_dict (l : License) : License.from_dict l.to_dict = l := by
  cases l with
  | mk name url => cases name <;> cases url <;> rfl


/-! ### C8: `DatasetMeta.version` -/

/-- C8 counterexample: with exactly one source whose `publication_date` and
`publication_year` are both unset, the derived version is the *string*
`"None"` (Python's `str(None)`), not `None` as the claim states. -/
theorem C8_counterexample :
    DatasetMeta.version { sources := [{}] } = some "None" ∧
      some "None" ≠ (none : Option String) := by
  exact ⟨rfl, by decide⟩

/-- C8 (amended): with exactly one source, the derived version is the
publication date when that is set (truthy), else `str(publication_year)` —
which is the year rendered as a string when the year is set, and the string
`"None"` when it is unset; with zero or several sources the version is
`None`. -/
theorem C8_amended (m : DatasetMeta) :
    (∀ s, m.sources = [s] → s.publication_date = none → s.publication_year = none →
        m.version = some "None") ∧
    (∀ s d, m.sources = [s] → s.publication_date = some d → d ≠ "" →
        m.version = some d) ∧
    (∀ s y, m.sources = [s] → s.publication_date = none → s.publication_year = some y →
        m.version = some (toString y)) ∧
    (m.sources.length ≠ 1 → m.version = none) := by
  refine ⟨?_, ?_, ?_, ?_⟩
  · intro s hs hd hy
    simp [DatasetMeta.version, hs, hd, hy, pyTruthyStr, pyStrOptInt]
  · intro s d hs hd hne
    simp [DatasetMeta.version, hs, hd, pyTruthyStr, hne]
  · intro s y hs hd hy
    simp [DatasetMeta.version, hs, hd, hy, pyTruthyStr, pyStrOptInt]
  · intro hlen
    match hs : m.sources with
    | [] => simp [DatasetMeta.version, hs]
    | [s] => exact absurd (by rw [hs]; rfl) hlen
    | s₁ :: s₂ :: rest => simp [DatasetMeta.version, hs]

/-- C8 witness: the amended behaviour at concrete inputs — an empty single
source gives the string `"None"`, a dated single source gives the date, no
sources give `None`. -/
theorem C8_amended_witness :
    DatasetMeta.version { sources := [{}] } = some "None" ∧
    DatasetMeta.version { sources := [{ publication_date := some "2022-01-01" }] } =
      some "2022-01-01" ∧
    DatasetMeta.version {} = none := by
  refine ⟨(C8_amended _).1 {} rfl rfl rfl, ?_, (C8_amended _).2.2.2 (by decide)⟩
  exact (C8_amended _).2.1 { publication_date := some "2022-01-01" } "2022-01-01"
    rfl rfl (by decide)

/-! ### C4: `Dataset.__contains__` versus `Dataset.__getitem__` -/

/-- C4 counterexample: a table stored only in parquet format loads fine via
`d[name]` but `name in d` reports `false` — containment does not mirror the
lookup's format set. -/
theorem C4_counterexample :
    Dataset.contains ⟨"d"⟩ ["d/t.parquet"] "t" = false ∧
      exceptOk (Dataset.getitem ⟨"d"⟩ ["d/t.parquet"] "t") = true := by
  exact ⟨by decide, by decide⟩

/-- C4 (amended): containment checks only the feather and csv files, while
the lookup succeeds exactly when a feather, parquet or csv file exists —
so containment implies a successful lookup, but a parquet-only table is
loadable without being reported as contained. -/
theorem C4_amended (d : Dataset) (fs : FS) (n : String) :
    exceptOk (d.getitem fs n) =
      (fs.contains (d.filename n ".feather") || fs.contains (d.filename n ".parquet") ||
        fs.contains (d.filename n ".csv")) ∧
    (d.contains fs n = true → exceptOk (d.getitem fs n) = true) := by
  constructor
  · by_cases hf : d.filename n ".feather" ∈ fs <;>
      by_cases hp : d.filename n ".parquet" ∈ fs <;>
      by_cases hc : d.filename n ".csv" ∈ fs <;>
      simp_all [Dataset.getitem, exceptOk]
  · intro hcont
    simp only [Dataset.contains, Bool.or_eq_true, List.elem_eq_mem,
      decide_eq_true_eq] at hcont
    rcases hcont with hf | hc
    · simp [Dataset.getitem, hf, exceptOk]
    · by_cases hf : d.filename n ".feather" ∈ fs <;>
        by_cases hp : d.filename n ".parquet" ∈ fs <;>
        simp_all [Dataset.getitem, exceptOk]

/-- C4 witness: the amended statement applied to a one-file file system in
each format. -/
theorem C4_amended_witness :
    exceptOk (Dataset.getitem ⟨"d"⟩ ["d/t.feather"] "t") = true ∧
      exceptOk (Dataset.getitem ⟨"d"⟩ [] "t") = false := by
  constructor
  · exact (C4_amended ⟨"d"⟩ ["d/t.feather"] "t").2 (by decide)
  · have h := (C4_amended ⟨"d"⟩ [] "t").1
    simpa using h

/-! ### C3: `Table(df, underscore=True)` -/

/-- C3: constructing a table with `underscore=True` calls
`underscore_table(self, inplace=True)`, but `utils.underscore_table`
declares no `inplace` parameter — the construction raises `TypeError`
instead of returning a snake_cased table. -/
theorem C3_underscore_init_type_error (columns : List (String × List (Option Int)))
    (metadata : Option TableMeta) :
    Table.init columns metadata none true =
      .error "TypeError: got an unexpected keyword argument inplace" := by
  cases metadata <;> rfl

/-! ### C2 / C10: metadata combination in variable arithmetic

`combine_variables_metadata` ends by reading each operand's
`metadata.processing_log`, an attribute `meta.py`'s `VariableMeta` does not
declare; on freshly constructed metadata that read raises `AttributeError`,
so the whole arithmetic operation fails before any combined metadata is
returned.  The helper theorems below show that the per-field combination
functions themselves do behave as the spec describes. -/

/-- Helper: for `+`, the combined unit is the shared unit when both operands
agree, and `None` when they differ; for the multiplicative/divisive
operations it is always `None`. -/
theorem combine_units_spec (a b : VariableMeta) :
    (a.unit = b.unit → combine_variables_units [a, b] "+" = a.unit) ∧
    (a.unit ≠ b.unit → combine_variables_units [a, b] "+" = none) ∧
    (∀ op, op = "*" ∨ op = "/" ∨ op = "//" ∨ op = "%" ∨ op = "**" →
      combine_variables_units [a, b] op = none) := by
  refine ⟨?_, ?_, ?_⟩
  · intro h
    simp [combine_variables_units, _combine_variable_units_or_short_units, pdUnique,
      pdUniqueAux, h]
  · intro h
    simp [combine_variables_units, _combine_variable_units_or_short_units, pdUnique,
      pdUniqueAux, Ne.symm h]
  · intro op hop
    rcases hop with h | h | h | h | h <;>
      subst h <;>
      simp [combine_variables_units, _combine_variable_units_or_short_units]

/-- Helper: combined sources are the concatenation of the operands' source
lists deduplicated by pruned-dict equality — which coincides with record
equality — keeping the first occurrence in order. -/
theorem combine_sources_pair (a b : VariableMeta) (s₁ s₂ : Source)
    (ha : a.sources = [s₁]) (hb : b.sources = [s₂]) (hne : s₁ ≠ s₂) :
    get_unique_sources_from_variables [a, b] = [s₁, s₂] := by
  have hdict : s₁.to_dict ≠ s₂.to_dict := by
    intro h
    exact hne (by rw [← source_from_dict_to_dict s₁, h, source_from_dict_to_dict])
  simp [get_unique_sources_from_variables, ha, hb, pdUnique, pdUniqueAux, hdict,
    Ne.symm hdict, source_from_dict_to_dict]

/-- C2: evaluating `A + B` on two named variables with unit `"USD"` and one
source each — instead of returning combined metadata, the operation raises
`AttributeError` while combining processing logs, because `meta.py`'s
`VariableMeta` declares no `processing_log` field. -/
theorem C2_add_attribute_error :
    Variable.add
      { name := some "a", values := [some 1],
        fields :=
          [("a", { unit := some "USD", short_unit := some "$", sources := [{ name := some "s1" }] })] }
      (.var
        { name := some "b", values := [some 2],
          fields :=
            [("b", { unit := some "USD", short_unit := some "$", sources := [{ name := some "s2" }] })] })
      = .error "AttributeError: 'VariableMeta' object has no attribute 'processing_log'" := by
  rfl

/-- C10: evaluating `v.fillna(w)` on two named variables with identical
non-null unit, title and description — instead of returning a variable
whose unit is dropped and title preserved, the call raises the same
`AttributeError` inside `combine_variables_metadata`. -/
theorem C10_fillna_attribute_error :
    Variable.fillna
      { name := some "a", values := [some 1, none],
        fields :=
          [("a", { title := some "T", description := some "D", unit := some "USD" })] }
      (.var
        { name := some "b", values := [some 5, some 6],
          fields :=
            [("b", { title := some "T", description := some "D", unit := some "USD" })] })
      = .error "AttributeError: 'VariableMeta' object has no attribute 'processing_log'" := by
  rfl

/-! ### C9: `Table.copy` and metadata aliasing -/

/-- Lookup in an association list built by keeping, for each key of `ks`,
the entry `g k` when present. -/
theorem lookup_filterMap_keys {β : Type} (ks : List String) (g : String → Option β)
    (c : String) :
    (ks.filterMap (fun k => (g k).map (fun v => (k, v)))).lookup c =
      if c ∈ ks then g c else none := by
  induction ks with
  | nil => simp
  | cons k ks ih =>
      by_cases hck : c = k
      · subst hck
        cases hg : g c with
        | none =>
            simp only [List.filterMap_cons, hg, Option.map_none']
            rw [ih]
            by_cases hmem : c ∈ ks <;> simp [hmem, hg]
        | some v =>
            simp [List.filterMap_cons, hg, List.lookup_cons]
      · have hbeq : (c == k) = false := by simpa using hck
        cases hg : g k with
        | none =>
            simp only [List.filterMap_cons, hg, Option.map_none']
            rw [ih]
            simp [List.mem_cons, hck]
        | some v =>
            simp only [List.filterMap_cons, hg, Option.map_some', List.lookup_cons, hbeq]
            rw [ih]
            simp [List.mem_cons, hck]

/-- C9 counterexample: after `Table.copy`, the copy's record for data column
`"a"` holds the *same* display-dict reference as the original's, so an
in-place mutation of the display mapping through the copy changes the
display the original table observes; moreover the index column `"i"`'s
metadata entry is not carried into the copy at all. -/
theorem C9_counterexample :
    ((TableObj.copy exampleTableObj).fields.lookup "a").map (fun m => m.displayRef) =
      some (some 0) ∧
    (exampleTableObj.fields.lookup "a").map
        (fun m => m.displayValue (exampleHeap.setDictKey 0 "color" "blue")) ≠
      (exampleTableObj.fields.lookup "a").map (fun m => m.displayValue exampleHeap) ∧
    (TableObj.copy exampleTableObj).fields.lookup "i" = none ∧
    (exampleTableObj.fields.lookup "i").isSome = true := by
  refine ⟨rfl, by decide, rfl, rfl⟩

/-- C9 (amended): `Table.copy` rebuilds the metadata mapping over the data
columns only — each data column's record is carried over (with its `sources`
list rebuilt element-wise, and its nested `display`/`licenses` containers
still shared by reference), while index-column entries are dropped. -/
theorem C9_amended (t : TableObj) (col : String) :
    (col ∈ t.columnNames → (TableObj.copy t).fields.lookup col = t.fields.lookup col) ∧
    (col ∉ t.columnNames → (TableObj.copy t).fields.lookup col = none) := by
  have hfun : ∀ k, (match t.fields.lookup k with
      | some v => some (k, { v with sources := v.sources.map (fun s => s) })
      | none => (t.fields.lookup k).map (fun v => (k, v))) =
      (t.fields.lookup k).map (fun v => (k, v)) := by
    intro k
    cases h : t.fields.lookup k with
    | none => simp
    | some v => simp [List.map_id']
  have hfilter : t.columnNames.filter (fun c => t.columnNames.contains c) =
      t.columnNames :=
    List.filter_eq_self.mpr (fun a ha => by simpa using ha)
  have hfields : (TableObj.copy t).fields =
      t.columnNames.dedup.filterMap (fun k => (t.fields.lookup k).map (fun v => (k, v))) := by
    show copy_metadata_from_fields t.columnNames t.columnNames t.fields t.fields = _
    unfold copy_metadata_from_fields
    rw [hfilter]
    exact List.filterMap_congr (fun k _ => hfun k)
  constructor
  · intro hmem
    rw [hfields, lookup_filterMap_keys]
    simp [List.mem_dedup, hmem]
  · intro hmem
    rw [hfields, lookup_filterMap_keys]
    simp [List.mem_dedup, hmem]

/-- C9 witness: the amended statement at the concrete example table — the
data column's record is carried, the index column's entry is dropped. -/
theorem C9_amended_witness :
    (TableObj.copy exampleTableObj).fields.lookup "a" =
      exampleTableObj.fields.lookup "a" ∧
    (TableObj.copy exampleTableObj).fields.lookup "i" = none :=
  ⟨(C9_amended exampleTableObj "a").1 (by decide),
   (C9_amended exampleTableObj "i").2 (by decide)⟩

/-! ### C7: `CatalogFrame.load` / `find_one` require exactly one row -/

/-- C7: resolving-and-loading succeeds only when the filtered result has
exactly one row; with zero rows or several rows it raises the
count error instead of loading anything, and a successful `find_one`
implies its `find` produced exactly one row. -/
theorem C7_load_requires_single_row (fetch : String → Option Table)
    (baseUri : Option String) (frame : List CatalogRow) :
    (exceptOk (CatalogFrame.load fetch baseUri frame) = true → frame.length = 1) ∧
    (frame.length ≠ 1 →
      CatalogFrame.load fetch baseUri frame =
        .error "only one table can be loaded at once") ∧
    (∀ channels table ns version dataset channel,
      exceptOk (CatalogMixin.find_one fetch baseUri frame channels table ns version
        dataset channel) = true →
      ∃ rows, CatalogMixin.find frame channels table ns version dataset channel = .ok rows ∧
        rows.length = 1) := by
  have hload : ∀ fr : List CatalogRow,
      exceptOk (CatalogFrame.load fetch baseUri fr) = true → fr.length = 1 := by
    intro fr h
    match fr with
    | [] => simp [CatalogFrame.load, exceptOk] at h
    | [row] => rfl
    | r₁ :: r₂ :: rest => simp [CatalogFrame.load, exceptOk] at h
  refine ⟨hload frame, ?_, ?_⟩
  · intro h
    match frame with
    | [] => rfl
    | [row] => exact absurd rfl h
    | r₁ :: r₂ :: rest => rfl
  · intro channels table ns version dataset channel h
    cases hfind : CatalogMixin.find frame channels table ns version dataset channel with
    | error e =>
        rw [CatalogMixin.find_one, hfind] at h
        simp [exceptOk, Bind.bind, Except.bind] at h
    | ok rows =>
        rw [CatalogMixin.find_one, hfind] at h
        simp only [Bind.bind, Except.bind] at h
        exact ⟨rows, rfl, hload rows h⟩

/-- C7 witness: a two-row frame raises the count error. -/
theorem C7_load_requires_single_row_witness :
    CatalogFrame.load (fun _ => none) none [{}, {}] =
      .error "only one table can be loaded at once" :=
  (C7_load_requires_single_row (fun _ => none) none [{}, {}]).2.1 (by decide)

/-! ### C6: snake_case enforcement in `Dataset.add` -/

/-- If the validated name list contains a non-snake_case name, the
validation loop fails with a `NameError` naming a non-snake_case value. -/
theorem validateColumnNames_error (names : List (Option String))
    (h : ∃ c, some c ∈ names ∧ isSnakeCase c = false) :
    ∃ b, isSnakeCase b = false ∧
      validateColumnNames names = .error (.nameError "Variable's name" b) := by
  induction names with
  | nil => obtain ⟨c, hc, _⟩ := h; simp at hc
  | cons hd tl ih =>
      cases hd with
      | none =>
          have ht : ∃ c, some c ∈ tl ∧ isSnakeCase c = false := by
            obtain ⟨c, hc, hbad⟩ := h
            rcases List.mem_cons.1 hc with hh | hmem
            · exact absurd hh (by simp)
            · exact ⟨c, hmem, hbad⟩
          obtain ⟨b, hb, heq⟩ := ih ht
          exact ⟨b, hb, by
            simp [validateColumnNames, validate_underscore, heq, Bind.bind, Except.bind]⟩
      | some m =>
          by_cases hm : isSnakeCase m = true
          · have ht : ∃ c, some c ∈ tl ∧ isSnakeCase c = false := by
              obtain ⟨c, hc, hbad⟩ := h
              rcases List.mem_cons.1 hc with hh | hmem
              · obtain rfl : c = m := by simpa using hh
                rw [hm] at hbad; cases hbad
              · exact ⟨c, hmem, hbad⟩
            obtain ⟨b, hb, heq⟩ := ih ht
            exact ⟨b, hb, by
              simp [validateColumnNames, validate_underscore, hm, heq, Bind.bind, Except.bind]⟩
          · refine ⟨m, by simpa using hm, ?_⟩
            simp [validateColumnNames, validate_underscore, hm, Bind.bind, Except.bind]

/-- C6: adding a table whose `short_name` or any column/index name is not
snake_case raises a naming error identifying a non-snake_case value, and
the file system is returned unchanged — no file of the table is written. -/
theorem C6_add_naming_error (d : Dataset) (t : Table) (formats : List String) (fs : FS)
    (h : (∃ n, t.metadata.short_name = some n ∧ isSnakeCase n = false) ∨
         (∃ c, c ∈ t.columns.map Prod.fst ∧ isSnakeCase c = false) ∨
         (∃ c, some c ∈ t.index.map Prod.fst ∧ isSnakeCase c = false)) :
    ∃ obj bad, isSnakeCase bad = false ∧
      Dataset.add d t formats fs = (fs, some (.nameError obj bad)) := by
  cases hs : t.metadata.short_name with
  | some n =>
      by_cases hsn : isSnakeCase n = true
      · -- the short name validates; the offender is among the column/index names
        have hcomb : ∃ c,
            some c ∈ (t.columns.map (fun c => some c.1) ++ t.index.map Prod.fst) ∧
              isSnakeCase c = false := by
          rcases h with ⟨n', hn', hbad⟩ | ⟨c, hc, hbad⟩ | ⟨c, hc, hbad⟩
          · rw [hs] at hn'
            obtain rfl : n' = n := by simpa using hn'.symm
            rw [hsn] at hbad; cases hbad
          · refine ⟨c, List.mem_append_left _ ?_, hbad⟩
            obtain ⟨col, hcol, rfl⟩ := List.mem_map.1 hc
            exact List.mem_map.2 ⟨col, hcol, rfl⟩
          · exact ⟨c, List.mem_append_right _ hc, hbad⟩
        obtain ⟨b, hb, heq⟩ := validateColumnNames_error _ hcomb
        exact ⟨"Variable's name", b, hb,
          by simp [Dataset.add, validate_underscore, hs, hsn, heq]⟩
      · exact ⟨"Table's short_name", n, by simpa using hsn,
          by simp [Dataset.add, validate_underscore, hs, hsn]⟩
  | none =>
      have hcomb : ∃ c,
          some c ∈ (t.columns.map (fun c => some c.1) ++ t.index.map Prod.fst) ∧
            isSnakeCase c = false := by
        rcases h with ⟨n', hn', _⟩ | ⟨c, hc, hbad⟩ | ⟨c, hc, hbad⟩
        · rw [hs] at hn'; cases hn'
        · refine ⟨c, List.mem_append_left _ ?_, hbad⟩
          obtain ⟨col, hcol, rfl⟩ := List.mem_map.1 hc
          exact List.mem_map.2 ⟨col, hcol, rfl⟩
        · exact ⟨c, List.mem_append_right _ hc, hbad⟩
      obtain ⟨b, hb, heq⟩ := validateColumnNames_error _ hcomb
      exact ⟨"Variable's name", b, hb,
        by simp [Dataset.add, validate_underscore, hs, heq]⟩

/-- C6 witness: adding a table with a column named `"GDP Per Capita"` to an
empty dataset directory errors and writes nothing. -/
theorem C6_add_naming_error_witness :
    ∃ obj bad, isSnakeCase bad = false ∧
      Dataset.add ⟨"ds"⟩
        { columns := [("GDP Per Capita", [some 1])],
          metadata := { short_name := some "tab" } }
        DEFAULT_FORMATS [] = ([], some (.nameError obj bad)) :=
  C6_add_naming_error _ _ _ _
    (Or.inr (Or.inl ⟨"GDP Per Capita", by decide, by decide⟩))

/-! ### C5: the catalog tree walk and `index.json` leaves -/

theorem subtrees_node (p : String) (h : Bool) (c : List DirTree) :
    DirTree.subtrees (.node p h c) = .node p h c :: forestSubtrees c := by
  rw [DirTree.subtrees]
  simp [forestSubtrees, List.attach_map_coe]

theorem forestSubtrees_cons (t : DirTree) (rest : List DirTree) :
    forestSubtrees (t :: rest) = t.subtrees ++ forestSubtrees rest := by
  simp [forestSubtrees]

theorem forestSubtrees_append (l₁ l₂ : List DirTree) :
    forestSubtrees (l₁ ++ l₂) = forestSubtrees l₁ ++ forestSubtrees l₂ := by
  simp [forestSubtrees]

/-- C5 counterexample: with an include filter that matches nothing, a
dataset folder (it contains `index.json`) is *not* treated as a leaf — the
walk yields nothing and descends both into the dataset folder and into its
subfolder. -/
theorem C5_counterexample :
    LocalCatalog.iter_datasets (fun _ => false)
        (.node "garden/ns/ds" true [.node "garden/ns/ds/sub" false []]) =
      ([], ["garden/ns/ds", "garden/ns/ds/sub"]) := by
  simp [LocalCatalog.iter_datasets, iterDatasets]

/-- C5 (amended): a visited folder is descended into exactly when it fails
the leaf test `index.json present ∧ path matches the filter`: every
descended folder corresponds to a node of the walked forest with
`hasIndexJson && included = false` (so with no filter, an `index.json`
folder is never descended), and every yielded dataset corresponds to a node
with `index.json` present and a matching path. -/
theorem C5_amended (included : String → Bool) (l : List DirTree) :
    (∀ d ∈ (iterDatasets included l).2,
      ∃ hasIdx children, DirTree.node d hasIdx children ∈ forestSubtrees l ∧
        (hasIdx && included d) = false) ∧
    (∀ y ∈ (iterDatasets included l).1,
      ∃ children, DirTree.node y true children ∈ forestSubtrees l ∧ included y = true) := by
  induction l using iterDatasets.induct included with
  | case1 =>
      constructor <;> intro d hd <;> simp [iterDatasets] at hd
  | case2 path hasIdx children rest hcond ih =>
      obtain ⟨ihDesc, ihYield⟩ := ih
      rw [iterDatasets, if_pos hcond]
      constructor
      · intro d hd
        obtain ⟨hI, cs, hmem, hfalse⟩ := ihDesc d hd
        exact ⟨hI, cs, by
          rw [forestSubtrees_cons, subtrees_node]
          exact List.mem_cons_of_mem _ (List.mem_append_right _ hmem), hfalse⟩
      · intro y hy
        rcases List.mem_cons.1 hy with rfl | hmem
        · have hcond' := hcond
          rw [Bool.and_eq_true] at hcond'
          refine ⟨children, ?_, hcond'.2⟩
          rw [forestSubtrees_cons, subtrees_node, ← hcond'.1]
          exact List.mem_cons_self _ _
        · obtain ⟨cs, hmem', hinc⟩ := ihYield y hmem
          exact ⟨cs, by
            rw [forestSubtrees_cons, subtrees_node]
            exact List.mem_cons_of_mem _ (List.mem_append_right _ hmem'), hinc⟩
  | case3 path hasIdx children rest hcond ih =>
      obtain ⟨ihDesc, ihYield⟩ := ih
      rw [iterDatasets, if_neg hcond]
      have hsub : ∀ x, x ∈ forestSubtrees (children ++ rest) →
          x ∈ forestSubtrees (DirTree.node path hasIdx children :: rest) := by
        intro x hx
        rw [forestSubtrees_cons, subtrees_node, forestSubtrees_append] at *
        rcases List.mem_append.1 hx with h1 | h2
        · exact List.mem_cons_of_mem _ (List.mem_append_left _ h1)
        · exact List.mem_cons_of_mem _ (List.mem_append_right _ h2)
      constructor
      · intro d hd
        rcases List.mem_cons.1 hd with rfl | hmem
        · refine ⟨hasIdx, children, ?_, by simpa using hcond⟩
          rw [forestSubtrees_cons, subtrees_node]
          exact List.mem_cons_self _ _
        · obtain ⟨hI, cs, hmem', hfalse⟩ := ihDesc d hmem
          exact ⟨hI, cs, hsub _ hmem', hfalse⟩
      · intro y hy
        obtain ⟨cs, hmem', hinc⟩ := ihYield y hy
        exact ⟨cs, hsub _ hmem', hinc⟩

/-- C5 witness: on the concrete two-folder tree with a match-nothing filter,
the dataset folder is among the descended folders, witnessed by its node
(whose leaf test indeed fails). -/
theorem C5_amended_witness :
    ∃ hasIdx children,
      DirTree.node "garden/ns/ds" hasIdx children ∈
        forestSubtrees [DirTree.node "garden/ns/ds" true [.node "garden/ns/ds/sub" false []]] ∧
      (hasIdx && (fun _ => false) "garden/ns/ds") = false :=
  (C5_amended (fun _ => false)
      [DirTree.node "garden/ns/ds" true [.node "garden/ns/ds/sub" false []]]).1
    "garden/ns/ds" (by simp [iterDatasets])

/-! ### C1: save/load round trip -/

/-- Pruned serialization of a prune-stable column metadata record loads
back dataclass-equal (the pruning of `None`/`[]` values is inverted by the
declared defaults; empty dicts are excluded by prune-stability). -/
theorem variableMeta_from_dict_to_dict (m : VariableMeta) (hps : m.pruneStable) :
    (VariableMeta.from_dict m.to_dict).pyEq m := by
  obtain ⟨hd, ha⟩ := hps
  refine ⟨rfl, rfl, ?_, ?_, rfl, rfl, ?_, ?_⟩
  · by_cases h : m.sources = [] <;> simp [VariableMeta.to_dict, VariableMeta.from_dict, h]
  · by_cases h : m.licenses = [] <;> simp [VariableMeta.to_dict, VariableMeta.from_dict, h]
  · cases h : m.display with
    | none => simp [VariableMeta.to_dict, VariableMeta.from_dict, h]
    | some d =>
        have hne : d ≠ [] := by
          intro hnil
          exact hd (by rw [h, hnil])
        simp [VariableMeta.to_dict, VariableMeta.from_dict, h, hne]
  · cases h : m.additional_info with
    | none => simp [VariableMeta.to_dict, VariableMeta.from_dict, h]
    | some d =>
        have hne : d ≠ [] := by
          intro hnil
          exact ha (by rw [h, hnil])
        simp [VariableMeta.to_dict, VariableMeta.from_dict, h, hne]

/-- Pruned serialization of a `TableMeta` loads back equal (every field's
pruning is inverted by its default). -/
theorem tableMeta_from_dict_to_dict (m : TableMeta) :
    TableMeta.from_dict m.to_dict = m := by
  cases m with
  | mk sn ti de da pk =>
      by_cases h : pk = [] <;> simp [TableMeta.to_dict, TableMeta.from_dict, h]

/-- Lookup in an association list keyed by a list of keys. -/
theorem lookup_map_keys {β : Type} (ks : List String) (f : String → β) (c : String) :
    (ks.map (fun k => (k, f k))).lookup c = if c ∈ ks then some (f c) else none := by
  induction ks with
  | nil => simp
  | cons k ks ih =>
      by_cases hck : c = k
      · subst hck
        simp [List.lookup_cons]
      · have hbeq : (c == k) = false := by simpa using hck
        simp [List.lookup_cons, hbeq, ih, List.mem_cons, hck]

/-- Nonempty names pass Python's falsy-name filter unchanged. -/
theorem filterMap_pyFilterName_map_some (ns : List String) (h : ∀ n ∈ ns, n ≠ "") :
    (ns.map some).filterMap pyFilterName = ns := by
  induction ns with
  | nil => rfl
  | cons n ns ih =>
      have hn := h n (List.mem_cons_self _ _)
      have ih' := ih (fun x hx => h x (List.mem_cons_of_mem _ hx))
      simp [pyFilterName, hn, ih']

/-- For a well-formed index, the index level names are exactly the primary
key, wrapped in `some`. -/
theorem index_names_eq_primary_key (l : List (Option String × List (Option Int)))
    (hn : ∀ lv ∈ l, ∃ n, lv.1 = some n ∧ n ≠ "") :
    l.map Prod.fst = ((l.map Prod.fst).filterMap pyFilterName).map some := by
  induction l with
  | nil => rfl
  | cons hd tl ih =>
      obtain ⟨n, hn1, hne⟩ := hn hd (List.mem_cons_self _ _)
      have ih' := ih (fun lv hlv => hn lv (List.mem_cons_of_mem _ hlv))
      simp only [List.map_cons, hn1, List.filterMap_cons]
      rw [show pyFilterName (some n) = some n from by simp [pyFilterName, hne]]
      simpa using ih'

/-- For a well-formed table, `all_columns` is the primary key followed by
the data column names. -/
theorem all_columns_eq (t : Table)
    (hn : ∀ lv ∈ t.index, ∃ n, lv.1 = some n ∧ n ≠ "")
    (hc : ∀ c ∈ t.columns, c.1 ≠ "") :
    t.all_columns = t.primary_key ++ t.columns.map Prod.fst := by
  have haux : ∀ (cols : List (String × List (Option Int))), (∀ c ∈ cols, c.1 ≠ "") →
      List.filterMap pyFilterName (cols.map (fun c => some c.1)) = cols.map Prod.fst := by
    intro cols
    induction cols with
    | nil => intro _; rfl
    | cons c cs ih =>
        intro hcols
        simp only [List.map_cons, List.filterMap_cons]
        rw [show pyFilterName (some c.1) = some c.1 from by
          simp [pyFilterName, hcols c (List.mem_cons_self _ _)]]
        rw [ih (fun x hx => hcols x (List.mem_cons_of_mem _ hx))]
  unfold Table.all_columns Table.primary_key
  rw [List.filterMap_append]
  congr 1
  exact haux t.columns hc

/-- Re-applying `set_index` over flattened index columns reconstructs the
index levels: each primary-key name finds its own column first (the key
names are distinct), whatever data columns follow. -/
theorem reconstruct_index_gen (named cols : List (String × List (Option Int)))
    (hnd : (named.map Prod.fst).Nodup) :
    (named.map Prod.fst).filterMap
      (fun k => ((named ++ cols).lookup k).map (fun vs => ((some k : Option String), vs))) =
    named.map (fun p => ((some p.1 : Option String), p.2)) := by
  induction named with
  | nil => rfl
  | cons hd tl ih =>
      obtain ⟨n, v⟩ := hd
      simp only [List.map_cons, List.nodup_cons] at hnd
      obtain ⟨hnmem, hnd'⟩ := hnd
      have hhead : ((((n, v) :: (tl ++ cols)).lookup n).map
          (fun vs => ((some n : Option String), vs))) = some ((some n : Option String), v) := by
        simp [List.lookup_cons]
      have htail : (tl.map Prod.fst).filterMap
          (fun k => ((((n, v) :: tl) ++ cols).lookup k).map
            (fun vs => ((some k : Option String), vs))) =
          (tl.map Prod.fst).filterMap
          (fun k => ((tl ++ cols).lookup k).map (fun vs => ((some k : Option String), vs))) := by
        apply List.filterMap_congr
        intro k hk
        have hkn : (k == n) = false := by
          simp only [beq_eq_false_iff_ne, ne_eq]
          intro heq
          exact hnmem (heq ▸ hk)
        simp [List.lookup_cons, hkn]
      simp only [List.map_cons, List.filterMap_cons, List.cons_append, hhead]
      rw [show ((n, v) :: (tl ++ cols)) = (((n, v) :: tl) ++ cols) from rfl] at *
      rw [htail, ih hnd']

/-- Entries whose keys all belong to `pk` are all dropped by the
`set_index` column filter. -/
theorem filter_keys_nil (named : List (String × List (Option Int))) (pk : List String)
    (hmem : ∀ p ∈ named, p.1 ∈ pk) :
    named.filter (fun c => ! pk.contains c.1) = [] := by
  rw [List.filter_eq_nil_iff]
  intro a ha
  simp [hmem a ha]

/-- Entries whose keys avoid `pk` all survive the `set_index` column
filter. -/
theorem filter_keys_all (cols : List (String × List (Option Int))) (pk : List String)
    (hdis : ∀ p ∈ cols, p.1 ∉ pk) :
    cols.filter (fun c => ! pk.contains c.1) = cols :=
  List.filter_eq_self.mpr (fun a ha => by simp [hdis a ha])

/-- The serialized `fields` mapping reads back dataclass-equal for every
current column (under prune-stability). -/
theorem fields_roundtrip (t : Table)
    (hps : ∀ c ∈ t.all_columns, (t.getField c).pruneStable) :
    ∀ c ∈ t.all_columns,
      (((t.all_columns.map
          (fun col => (col, VariableMeta.from_dict (t.getField col).to_dict))).lookup c
        ).getD {}).pyEq (t.getField c) := by
  intro c hcmem
  rw [lookup_map_keys]
  simp only [hcmem, if_pos, Option.getD_some]
  exact variableMeta_from_dict_to_dict _ (hps c hcmem)

/-- A well-formed table with an empty primary key has no index levels. -/
theorem index_nil_of_primary_key_nil (t : Table)
    (hn : ∀ lv ∈ t.index, ∃ n, lv.1 = some n ∧ n ≠ "")
    (hpk : t.primary_key = []) : t.index = [] := by
  cases hI : t.index with
  | nil => rfl
  | cons lv rest =>
      obtain ⟨n, hn1, hne⟩ := hn lv (by rw [hI]; exact List.mem_cons_self _ _)
      have hform : t.primary_key = (lv.1 :: rest.map Prod.fst).filterMap pyFilterName := by
        unfold Table.primary_key
        rw [hI, List.map_cons]
      rw [hform, List.filterMap_cons, hn1] at hpk
      simp [pyFilterName, hne] at hpk

/-- Rebuilding a keyless well-formed table from its saved cells, a metadata
record equal to the original's, and the serialized fields recovers the
table. -/
theorem rebuild_roundtrip_nopk (t : Table)
    (hn : ∀ lv ∈ t.index, ∃ n, lv.1 = some n ∧ n ≠ "")
    (hps : ∀ c ∈ t.all_columns, (t.getField c).pruneStable)
    (hpk : t.primary_key = []) (M : TableMeta) (hM : M = t.metadata) :
    Table.roundtripEq
      { index := [], columns := t.columns, metadata := M,
        fields := t.all_columns.map
          (fun col => (col, VariableMeta.from_dict (t.getField col).to_dict)) } t := by
  refine ⟨?_, rfl, hM, fields_roundtrip t hps⟩
  show ([] : List (Option String × List (Option Int))) = t.index
  rw [index_nil_of_primary_key_nil t hn hpk]

/-- Rebuilding a keyed well-formed table — saved cells are the flattened
index followed by the data columns — and re-applying `set_index` with the
primary key recovers the table, for any metadata record agreeing with the
original's outside `primary_key`. -/
theorem rebuild_roundtrip_pk (t : Table)
    (hn : ∀ lv ∈ t.index, ∃ n, lv.1 = some n ∧ n ≠ "")
    (hnodup : t.all_columns.Nodup)
    (hcne : ∀ c ∈ t.columns, c.1 ≠ "")
    (hps : ∀ c ∈ t.all_columns, (t.getField c).pruneStable)
    (M : TableMeta)
    (hM1 : { M with primary_key := t.primary_key } = t.metadata) :
    Table.roundtripEq
      (Table.set_index
        { index := [], columns := t.resetIndexColumns, metadata := M,
          fields := t.all_columns.map
            (fun col => (col, VariableMeta.from_dict (t.getField col).to_dict)) }
        t.primary_key) t := by
  have hnamesEq : t.index.map Prod.fst = t.primary_key.map some :=
    index_names_eq_primary_key t.index hn
  have hreset : t.resetIndexColumns =
      t.index.map (fun lv => (lv.1.getD "index", lv.2)) ++ t.columns := rfl
  have hnamedfst :
      (t.index.map (fun lv => (lv.1.getD "index", lv.2))).map Prod.fst = t.primary_key := by
    rw [List.map_map]
    rw [show (Prod.fst ∘ fun lv : Option String × List (Option Int) =>
        (lv.1.getD "index", lv.2)) =
        ((fun o : Option String => o.getD "index") ∘ Prod.fst) from rfl]
    rw [← List.map_map, hnamesEq, List.map_map]
    rw [show ((fun o : Option String => o.getD "index") ∘ some) = (fun n : String => n)
      from rfl]
    exact List.map_id' _
  have hacols := all_columns_eq t hn hcne
  have hnodup' := hacols ▸ hnodup
  have hpknodup : t.primary_key.Nodup := (List.nodup_append.1 hnodup').1
  have hdisj : ∀ p ∈ t.columns, p.1 ∉ t.primary_key := by
    intro p hp hmem
    exact (List.nodup_append.1 hnodup').2.2 hmem (List.mem_map_of_mem Prod.fst hp)
  have hnamedid :
      (t.index.map (fun lv => (lv.1.getD "index", lv.2))).map
        (fun p => ((some p.1 : Option String), p.2)) = t.index := by
    rw [List.map_map]
    have hpt : ∀ lv ∈ t.index,
        ((fun p : String × List (Option Int) => ((some p.1 : Option String), p.2)) ∘
          (fun lv : Option String × List (Option Int) => (lv.1.getD "index", lv.2))) lv
          = lv := by
      intro lv hlv
      obtain ⟨n, hn1, _⟩ := hn lv hlv
      cases lv with
      | mk o vals =>
          simp only [Function.comp_apply]
          simp only at hn1
          rw [hn1]
          rfl
    rw [List.map_congr_left hpt, List.map_id']
  refine ⟨?_, ?_, hM1, fields_roundtrip t hps⟩
  · show t.primary_key.filterMap
        (fun k => (t.resetIndexColumns.lookup k).map
          (fun vs => ((some k : Option String), vs))) = t.index
    rw [hreset]
    conv_lhs => rw [← hnamedfst]
    rw [reconstruct_index_gen _ _ (by rw [hnamedfst]; exact hpknodup)]
    exact hnamedid
  · show t.resetIndexColumns.filter (fun c => ! t.primary_key.contains c.1) = t.columns
    rw [hreset, List.filter_append]
    rw [filter_keys_nil _ _ (fun p hp => by
      rw [← hnamedfst]; exact List.mem_map_of_mem Prod.fst hp)]
    rw [filter_keys_all _ _ hdisj]
    rfl

/-- The csv reader's `TableMeta(**metadata)` on a sidecar with the
`primary_key` key popped. -/
theorem tableMeta_from_dict_popped (m : TableMeta) :
    TableMeta.from_dict { m.to_dict with primary_key := none } =
      { m with primary_key := [] } := by
  cases m with
  | mk sn ti de da pk => simp [TableMeta.to_dict, TableMeta.from_dict]

/-- The feather reader's `TableMeta.from_dict` on a sidecar whose
`primary_key` key was overwritten with the saved primary key. -/
theorem tableMeta_from_dict_pk (m : TableMeta) (pk : List String) :
    TableMeta.from_dict { m.to_dict with primary_key := some pk } =
      { m with primary_key := pk } := by
  cases m with
  | mk sn ti de da pk' => simp [TableMeta.to_dict, TableMeta.from_dict]

/-- The sidecar `fields` read back through `VariableMeta.from_dict`. -/
theorem sidecar_fields_map (t : Table) :
    (t._save_metadata).fields.map (fun kv => (kv.1, VariableMeta.from_dict kv.2)) =
      t.all_columns.map
        (fun col => (col, VariableMeta.from_dict (t.getField col).to_dict)) := by
  unfold Table._save_metadata
  rw [List.map_map]
  rfl

/-- Round trip through csv: `Table.read_csv (Table.to_csv t)` equals `t`
for well-formed, prune-stable tables. -/
theorem read_csv_roundtrip (t : Table) (hwf : t.wf)
    (hps : ∀ c ∈ t.all_columns, (t.getField c).pruneStable) :
    Table.roundtripEq (Table.read_csv (Table.to_csv t)) t := by
  obtain ⟨hn, hmpk, hnodup, hcne⟩ := hwf
  have hpk0 : t.metadata.primary_key = t.primary_key := hmpk
  have hsc : (Table.to_csv t).sidecar.primary_key = t.primary_key := rfl
  have htm : (Table.to_csv t).sidecar.table_meta = t.metadata.to_dict := rfl
  have hcells : (Table.to_csv t).cells =
      if t.primary_key ≠ [] then t.resetIndexColumns else t.columns := rfl
  have hsf : (Table.to_csv t).sidecar.fields = t._save_metadata.fields := rfl
  have hMeq : ({ { t.metadata with primary_key := [] } with
      primary_key := t.primary_key } : TableMeta) = t.metadata := by
    cases hm : t.metadata with
    | mk sn ti de da pk' =>
        rw [hm] at hpk0
        simp only at hpk0
        simp [← hpk0]
  by_cases hpk : t.primary_key = []
  · have hred : Table.read_csv (Table.to_csv t) =
        { index := [], columns := t.columns,
          metadata := TableMeta.from_dict { t.metadata.to_dict with primary_key := none },
          fields := t.all_columns.map
            (fun col => (col, VariableMeta.from_dict (t.getField col).to_dict)) } := by
      unfold Table.read_csv
      simp only [hsc, htm, hcells, hsf]
      rw [sidecar_fields_map]
      simp only [hpk, ne_eq, not_true_eq_false, if_false, ite_false]
    rw [hred, tableMeta_from_dict_popped]
    refine rebuild_roundtrip_nopk t hn hps hpk _ ?_
    rw [← hMeq]
    simp [hpk]
  · have hred : Table.read_csv (Table.to_csv t) =
        Table.set_index
          { index := [], columns := t.resetIndexColumns,
            metadata := TableMeta.from_dict { t.metadata.to_dict with primary_key := none },
            fields := t.all_columns.map
              (fun col => (col, VariableMeta.from_dict (t.getField col).to_dict)) }
          t.primary_key := by
      unfold Table.read_csv
      simp only [hsc, htm, hcells, hsf]
      rw [sidecar_fields_map]
      simp only [hpk, ne_eq, not_false_eq_true, if_true, ite_true]
    rw [hred, tableMeta_from_dict_popped]
    exact rebuild_roundtrip_pk t hn hnodup hcne hps _ hMeq

/-- Round trip through feather: the overlap check passes on well-formed
tables, `Table.to_feather` succeeds, and reading back recovers the
table. -/
theorem read_feather_roundtrip (t : Table) (hwf : t.wf)
    (hps : ∀ c ∈ t.all_columns, (t.getField c).pruneStable) :
    ∃ f, Table.to_feather t = .ok f ∧ Table.roundtripEq (Table.read_feather f) t := by
  obtain ⟨hn, hmpk, hnodup, hcne⟩ := hwf
  have hpk0 : t.metadata.primary_key = t.primary_key := hmpk
  have hnamesEq : t.index.map Prod.fst = t.primary_key.map some :=
    index_names_eq_primary_key t.index hn
  have hacols := all_columns_eq t hn hcne
  have hnodup' := hacols ▸ hnodup
  have hoverlap : ((t.index.map Prod.fst).filterMap id).filter
      (fun n => (t.columns.map Prod.fst).contains n) = [] := by
    have h1 : (t.index.map Prod.fst).filterMap id = t.primary_key := by
      rw [hnamesEq, List.filterMap_map]
      simp
    rw [h1, List.filter_eq_nil_iff]
    intro n hnmem
    have : n ∉ t.columns.map Prod.fst :=
      fun hmem => (List.nodup_append.1 hnodup').2.2 hnmem hmem
    simp [this]
  have hfok : Table.to_feather t = .ok
      { cells := if t.primary_key ≠ [] then t.resetIndexColumns else t.columns,
        sidecar := t._save_metadata } := by
    unfold Table.to_feather
    simp only [hoverlap, ne_eq, not_true_eq_false, and_false, if_false, repack_frame]
  refine ⟨_, hfok, ?_⟩
  have hMeqF : ({ t.metadata with primary_key := t.primary_key } : TableMeta) =
      t.metadata := by
    cases hm : t.metadata with
    | mk sn ti de da pk' =>
        rw [hm] at hpk0
        simp only at hpk0
        simp [← hpk0]
  have hsf : ∀ cs : List (String × List (Option Int)),
      ({ cells := cs, sidecar := t._save_metadata } : SavedSidecarFile).sidecar.fields =
        t._save_metadata.fields := fun _ => rfl
  have hsp : t._save_metadata.primary_key = t.primary_key := rfl
  have hst : t._save_metadata.table_meta = t.metadata.to_dict := rfl
  by_cases hpk : t.primary_key = []
  · have hred : Table.read_feather
        { cells := if t.primary_key ≠ [] then t.resetIndexColumns else t.columns,
          sidecar := t._save_metadata } =
        { index := [], columns := t.columns,
          metadata := TableMeta.from_dict
            { t.metadata.to_dict with primary_key := some t.primary_key },
          fields := t.all_columns.map
            (fun col => (col, VariableMeta.from_dict (t.getField col).to_dict)) } := by
      unfold Table.read_feather
      simp only [hsf]
      rw [sidecar_fields_map]
      simp only [hsp, hst, hpk, ne_eq, not_true_eq_false, if_false, ite_false]
    rw [hred, tableMeta_from_dict_pk]
    exact rebuild_roundtrip_nopk t hn hps hpk _ hMeqF
  · have hred : Table.read_feather
        { cells := if t.primary_key ≠ [] then t.resetIndexColumns else t.columns,
          sidecar := t._save_metadata } =
        Table.set_index
          { index := [], columns := t.resetIndexColumns,
            metadata := TableMeta.from_dict
              { t.metadata.to_dict with primary_key := some t.primary_key },
            fields := t.all_columns.map
              (fun col => (col, VariableMeta.from_dict (t.getField col).to_dict)) }
          t.primary_key := by
      unfold Table.read_feather
      simp only [hsf]
      rw [sidecar_fields_map]
      simp only [hsp, hst, hpk, ne_eq, not_false_eq_true, if_true, ite_true]
    rw [hred, tableMeta_from_dict_pk]
    refine rebuild_roundtrip_pk t hn hnodup hcne hps _ ?_
    cases hm : t.metadata with
    | mk sn ti de da pk' =>
        rw [hm] at hpk0
        simp only at hpk0
        simp [← hpk0]

/-- Round trip through parquet: the three embedded schema-metadata keys are
written and read back, recovering the table. -/
theorem read_parquet_roundtrip (t : Table) (hwf : t.wf)
    (hps : ∀ c ∈ t.all_columns, (t.getField c).pruneStable) :
    Table.roundtripEq (Table.read_parquet (Table.to_parquet t)) t := by
  obtain ⟨hn, hmpk, hnodup, hcne⟩ := hwf
  have hpk0 : t.metadata.primary_key = t.primary_key := hmpk
  have hMeqF : ({ t.metadata with primary_key := t.primary_key } : TableMeta) =
      t.metadata := by
    cases hm : t.metadata with
    | mk sn ti de da pk' =>
        rw [hm] at hpk0
        simp only at hpk0
        simp [← hpk0]
  have hto : (Table.to_parquet t).owid_table = some t.metadata.to_dict := rfl
  have hfs : (Table.to_parquet t).owid_fields = some t._save_metadata.fields := rfl
  have hpkf : (Table.to_parquet t).primary_key = some t.primary_key := rfl
  have hcells : (Table.to_parquet t).cells =
      if t.primary_key ≠ [] then t.resetIndexColumns else t.columns := rfl
  by_cases hpk : t.primary_key = []
  · have hred : Table.read_parquet (Table.to_parquet t) =
        { index := [], columns := t.columns,
          metadata := TableMeta.from_dict t.metadata.to_dict,
          fields := t.all_columns.map
            (fun col => (col, VariableMeta.from_dict (t.getField col).to_dict)) } := by
      unfold Table.read_parquet
      simp only [hto, hfs, hpkf, hcells]
      rw [sidecar_fields_map]
      simp only [hpk, ne_eq, not_true_eq_false, if_false, ite_false]
    rw [hred, tableMeta_from_dict_to_dict]
    exact rebuild_roundtrip_nopk t hn hps hpk _ rfl
  · have hred : Table.read_parquet (Table.to_parquet t) =
        Table.set_index
          { index := [], columns := t.resetIndexColumns,
            metadata := TableMeta.from_dict t.metadata.to_dict,
            fields := t.all_columns.map
              (fun col => (col, VariableMeta.from_dict (t.getField col).to_dict)) }
          t.primary_key := by
      unfold Table.read_parquet
      simp only [hto, hfs, hpkf, hcells]
      rw [sidecar_fields_map]
      simp only [hpk, ne_eq, not_false_eq_true, if_true, ite_true]
    rw [hred, tableMeta_from_dict_to_dict]
    exact rebuild_roundtrip_pk t hn hnodup hcne hps _ hMeqF

/-- C1 counterexample: a table whose column metadata holds an *empty*
display dict does not round trip through csv (nor the other formats): the
pruned serialization drops the empty dict and loading restores `None`, so
the loaded per-column metadata differs from the saved table's. -/
theorem C1_counterexample :
    ¬ ((Table.read_csv (Table.to_csv
        { index := [], columns := [("a", [some 1])],
          metadata := { short_name := some "t" },
          fields := [("a", { display := some [] })] })).getField "a").pyEq
      (Table.getField
        { index := [], columns := [("a", [some 1])],
          metadata := { short_name := some "t" },
          fields := [("a", { display := some [] })] } "a") := by
  decide

/-- C1 (amended): for every well-formed table (named, distinct, nonempty
column/index names; `metadata.primary_key` matching the index) whose
per-column metadata is prune-stable (no *empty* `display`/`additional_info`
dicts), saving and loading returns an equal table in each supported format:
equal data content, equal `TableMeta`, and an equal per-column metadata
mapping keyed by the current columns. -/
theorem C1_amended (t : Table) (hwf : t.wf)
    (hps : ∀ c ∈ t.all_columns, (t.getField c).pruneStable) :
    Table.roundtripEq (Table.read_csv (Table.to_csv t)) t ∧
    (∃ f, Table.to_feather t = .ok f ∧ Table.roundtripEq (Table.read_feather f) t) ∧
    Table.roundtripEq (Table.read_parquet (Table.to_parquet t)) t :=
  ⟨read_csv_roundtrip t hwf hps, read_feather_roundtrip t hwf hps,
   read_parquet_roundtrip t hwf hps⟩

/-- C1 witness: the amended round trip at a concrete indexed table. -/
theorem C1_amended_witness :
    Table.roundtripEq (Table.read_csv (Table.to_csv exampleTable)) exampleTable ∧
    (∃ f, Table.to_feather exampleTable = .ok f ∧
      Table.roundtripEq (Table.read_feather f) exampleTable) ∧
    Table.roundtripEq (Table.read_parquet (Table.to_parquet exampleTable)) exampleTable :=
  C1_amended exampleTable
    ⟨fun lv hlv => by
        simp only [exampleTable, List.mem_singleton] at hlv
        subst hlv
        exact ⟨"country", rfl, by decide⟩,
      by decide, by decide, by decide⟩
    (by decide)

end OwidCatalog
